import Mathlib

/-!
Shallow embedding of `src/data_processor.py` (class `FacebookDataProcessor`)
and verification of the frozen claims about it.

Modelling conventions:
* Python values are modelled by the inductive `PyVal`; Python `float` is
  modelled by `Rat` (exact rationals; none of the verified code performs
  float arithmetic, it only stores parsed numbers).
* Python `dict` is modelled as an association list in insertion order,
  with `dictSet` reproducing the assignment semantics of Python dicts
  (update in place for an existing key, append for a fresh key) and
  `dictGet` reproducing `dict.get(key, default)`.  Record keys are
  strings, as in all JSON payloads the processor consumes.
* Code that can raise (attribute access on a non-dict, iteration over a
  non-iterable) is modelled in `Except PyErr`; `float(s)` failure is
  modelled by the `Option` result of `pyFloat`, since the source catches
  `ValueError` locally.
* `pyStr`/`pyRepr` model `str()` as used by the f-strings of the source;
  the rendering of floats and containers is a simplified repr (it is never
  exercised by well-typed API data, where action types are strings).
-/

inductive PyErr where
  | attributeError : PyErr
  | typeError : PyErr

inductive PyVal where
  | str : String → PyVal
  | int : Int → PyVal
  | float : Rat → PyVal
  | bool : Bool → PyVal
  | none : PyVal
  | list : List PyVal → PyVal
  | dict : List (String × PyVal) → PyVal

abbrev FlatRecord := List (String × PyVal)

mutual

def pyRepr : PyVal → String
  | .str s => "\x27" ++ s ++ "\x27"
  | .int n => toString n
  | .float q => toString q
  | .bool b => if b then "True" else "False"
  | .none => "None"
  | .list l => "[" ++ pyReprItems l ++ "]"
  | .dict d => "\x7b" ++ pyReprPairs d ++ "\x7d"

def pyReprItems : List PyVal → String
  | [] => ""
  | [v] => pyRepr v
  | v :: rest => pyRepr v ++ ", " ++ pyReprItems rest

def pyReprPairs : List (String × PyVal) → String
  | [] => ""
  | [(k, v)] => "\x27" ++ k ++ "\x27: " ++ pyRepr v
  | (k, v) :: rest => "\x27" ++ k ++ "\x27: " ++ pyRepr v ++ ", " ++ pyReprPairs rest

end

/-- Model of Python `str(x)` for the values the f-strings of the source
interpolate: the identity on strings, a repr-like rendering otherwise. -/
def pyStr : PyVal → String
  | .str s => s
  | v => pyRepr v

/-- Lookup in a Python dict modelled as an association list:
`d.get(k, dflt)`. -/
def dictGet (d : List (String × PyVal)) (k : String) (dflt : PyVal) : PyVal :=
  match d.find? (fun p => p.1 == k) with
  | some p => p.2
  | Option.none => dflt

/-- Python dict assignment `d[k] = v`: update in place when the key
exists, append otherwise. -/
def dictSet (d : FlatRecord) (k : String) (v : PyVal) : FlatRecord :=
  if d.any (fun p => p.1 == k) then
    d.map (fun p => if p.1 == k then (k, v) else p)
  else d ++ [(k, v)]

/-- Python attribute call `v.get(k, dflt)`: succeeds only on dicts,
raises `AttributeError` otherwise (the uncaught error path of the
source when a collection entry is not a mapping). -/
def pyGet (v : PyVal) (k : String) (dflt : PyVal) : Except PyErr PyVal :=
  match v with
  | .dict d => .ok (dictGet d k dflt)
  | _ => .error .attributeError

/-- Membership test `x in filt` of the source filter checks, where `filt`
is an optional list of allowed action-type strings (`None` = allow all). -/
def filterPass : Option (List String) → PyVal → Bool
  | Option.none, _ => true
  | some l, .str s => l.contains s
  | some _, _ => false

/-- The loop body shared (up to prefix and filter) by the five
list-shaped collection branches of `flatten_insights`: for each entry,
`entry.get("action_type", "unknown")`, `entry.get("value", 0)`, then a
filtered write of `flat[pfx + str(type)] = value`. -/
def flattenEntryList (filt : Option (List String)) (pfx : String) :
    FlatRecord → List PyVal → Except PyErr FlatRecord
  | flat, [] => .ok flat
  | flat, entry :: rest =>
    match pyGet entry "action_type" (.str "unknown") with
    | .error e => .error e
    | .ok t =>
      match pyGet entry "value" (.int 0) with
      | .error e => .error e
      | .ok v =>
        flattenEntryList filt pfx
          (if filterPass filt t then dictSet flat (pfx ++ pyStr t) v else flat) rest

/-- The loop body of the dict-shaped branches of `flatten_insights`
(`conversions`/`conversion_values` in mapping form, and — with `filt =
none` and `pfx = key ++ "_"` — the generic nested-object branch):
for each pair, a filtered write of `flat[pfx + type] = value`. -/
def flattenPairs (filt : Option (List String)) (pfx : String)
    (flat : FlatRecord) (pairs : List (String × PyVal)) : FlatRecord :=
  pairs.foldl (fun f p => if filterPass filt (.str p.1) then dictSet f (pfx ++ p.1) p.2 else f) flat

/-- One iteration of the main loop of `FacebookDataProcessor.flatten_insights`
(`src/data_processor.py`, lines 60-134), processing one `(key, value)` field
of the input record into the accumulated flat dict.  The branch structure
mirrors the elif chain of the source: the five collection branches fire only
for the matching key together with the matching runtime shape; any other
dict-valued field is flattened generically as `{key}_{subkey}`; any other
value is dropped when the key is `date_stop` and passed through otherwise. -/
def flattenStep (action_types action_value_types conversion_types : Option (List String))
    (flat : FlatRecord) (key : String) (value : PyVal) : Except PyErr FlatRecord :=
  match value with
  | .list entries =>
    if key = "actions" then
      flattenEntryList action_types "action_" flat entries
    else if key = "action_values" then
      flattenEntryList action_value_types "action_value_" flat entries
    else if key = "conversions" then
      flattenEntryList conversion_types "conversion_" flat entries
    else if key = "conversion_values" then
      flattenEntryList conversion_types "conversion_value_" flat entries
    else if key = "video_thruplay_watched_actions" then
      flattenEntryList Option.none "video_thruplay_watched_actions_" flat entries
    else if key = "date_stop" then .ok flat
    else .ok (dictSet flat key value)
  | .dict pairs =>
    if key = "conversions" then
      .ok (flattenPairs conversion_types "conversion_" flat pairs)
    else if key = "conversion_values" then
      .ok (flattenPairs conversion_types "conversion_value_" flat pairs)
    else
      .ok (flattenPairs Option.none (key ++ "_") flat pairs)
  | v =>
    if key = "date_stop" then .ok flat
    else .ok (dictSet flat key v)

/-- The main loop of `flatten_insights` over the fields of the input record,
in insertion order, threading the accumulated flat dict and aborting at the
first raised exception. -/
def flattenFields (action_types action_value_types conversion_types : Option (List String)) :
    FlatRecord → List (String × PyVal) → Except PyErr FlatRecord
  | flat, [] => .ok flat
  | flat, (k, v) :: rest =>
    match flattenStep action_types action_value_types conversion_types flat k v with
    | .ok f => flattenFields action_types action_value_types conversion_types f rest
    | .error e => .error e

/-- `FacebookDataProcessor.flatten_insights`: iterating `item.items()`
requires `item` to be a dict; a non-dict argument raises
`AttributeError` at the `.items()` call. -/
def flatten_insights (item : PyVal)
    (action_types action_value_types conversion_types : Option (List String)) :
    Except PyErr FlatRecord :=
  match item with
  | .dict fields => flattenFields action_types action_value_types conversion_types [] fields
  | _ => .error .attributeError

/-- Python truthiness, as used by `if not data:` in `process_insights`. -/
def pyFalsy : PyVal → Bool
  | .none => true
  | .bool b => !b
  | .int n => n == 0
  | .float q => q == 0
  | .str s => s.isEmpty
  | .list l => l.isEmpty
  | .dict d => d.isEmpty

/-- Python iteration `for item in data`: lists yield their elements,
strings their characters, dicts their keys; other values raise
`TypeError`. -/
def pyIter : PyVal → Except PyErr (List PyVal)
  | .list l => .ok l
  | .str s => .ok (s.toList.map (fun ch => .str (String.singleton ch)))
  | .dict d => .ok (d.map (fun p => .str p.1))
  | _ => .error .typeError

/-- The item loop of `process_insights`: flatten each item in order,
appending the results, aborting at the first raised exception. -/
def processItems (action_types action_value_types conversion_types : Option (List String)) :
    List PyVal → Except PyErr (List FlatRecord)
  | [] => .ok []
  | item :: rest =>
    match flatten_insights item action_types action_value_types conversion_types with
    | .error e => .error e
    | .ok f =>
      match processItems action_types action_value_types conversion_types rest with
      | .error e => .error e
      | .ok fs => .ok (f :: fs)

/-- `FacebookDataProcessor.process_insights` (`src/data_processor.py`,
lines 138-187): `data = response.get("data", [])`; empty/falsy data yields
`[]`; otherwise each item of `data` is flattened in order. -/
def process_insights (response : PyVal)
    (action_types action_value_types conversion_types : Option (List String)) :
    Except PyErr (List FlatRecord) :=
  match response with
  | .dict fields =>
    let data := dictGet fields "data" (.list [])
    if pyFalsy data then .ok []
    else
      match pyIter data with
      | .error e => .error e
      | .ok items => processItems action_types action_value_types conversion_types items
  | _ => .error .attributeError

/-- The fixed keyword vocabulary of `convert_numeric_fields`
(`src/data_processor.py`, lines 205-209). -/
def numeric_patterns : List String :=
  ["spend", "impressions", "clicks", "reach", "frequency",
   "ctr", "cpc", "cpm", "conversions", "cost", "action_",
   "value", "video", "budget"]

/-- Substring test, modelling the Python expression `p in s` on strings. -/
def isSubstr (p s : String) : Bool :=
  (List.range (s.toList.length + 1)).any (fun i => p.toList.isPrefixOf (s.toList.drop i))

/-- ASCII lowercasing of one character, modelling Python `str.lower`
on the ASCII field names the processor sees. -/
def charLower (c : Char) : Char :=
  if 'A' ≤ c && c ≤ 'Z' then Char.ofNat (c.toNat + 32) else c

/-- Model of Python `key.lower()`. -/
def pyLower (s : String) : String :=
  ⟨s.toList.map charLower⟩

/-- The candidate test of `convert_numeric_fields`:
`any(pattern in key.lower() for pattern in numeric_patterns)`. -/
def isNumericKey (key : String) : Bool :=
  numeric_patterns.any (fun pat => isSubstr pat (pyLower key))

/-- Value of an ASCII digit run, most significant first. -/
def digitsVal (ds : List Char) : Nat :=
  ds.foldl (fun a c => a * 10 + (c.toNat - 48)) 0

/-- Unsigned decimal significand: `digits`, `digits.`, `digits.digits`
or `.digits`; returns the parsed value and the unconsumed rest. -/
def parseUnsigned (l : List Char) : Option (Rat × List Char) :=
  let ip := l.takeWhile Char.isDigit
  let r1 := l.dropWhile Char.isDigit
  match r1 with
  | '.' :: r2 =>
    let fp := r2.takeWhile Char.isDigit
    let r3 := r2.dropWhile Char.isDigit
    if ip.isEmpty && fp.isEmpty then Option.none
    else some ((digitsVal ip : Rat) + (digitsVal fp : Rat) / ((10 : Rat) ^ fp.length), r3)
  | _ => if ip.isEmpty then Option.none else some ((digitsVal ip : Rat), r1)

/-- Model of Python `float(s)` on the decimal grammar
`[ws] [sign] significand [e [sign] digits] [ws]`; returns `none` exactly
when `float` would raise `ValueError`.  (The special forms `inf`/`nan`
and digit-group underscores are outside the model; no claim and no
spec example exercises them.) -/
def pyFloat (s : String) : Option Rat :=
  let l0 := ((s.toList.dropWhile Char.isWhitespace).reverse.dropWhile Char.isWhitespace).reverse
  let sgn : Rat × List Char :=
    match l0 with
    | '+' :: r => (1, r)
    | '-' :: r => (-1, r)
    | r => (1, r)
  match parseUnsigned sgn.2 with
  | Option.none => Option.none
  | some (m, rest) =>
    match rest with
    | [] => some (sgn.1 * m)
    | c :: r2 =>
      if c == 'e' || c == 'E' then
        let esgn : Int × List Char :=
          match r2 with
          | '+' :: t => (1, t)
          | '-' :: t => (-1, t)
          | t => (1, t)
        let ed := esgn.2.takeWhile Char.isDigit
        let r4 := esgn.2.dropWhile Char.isDigit
        if ed.isEmpty || !r4.isEmpty then Option.none
        else some (sgn.1 * m * (10 : Rat) ^ (esgn.1 * (digitsVal ed : Int)))
      else Option.none

/-- Per-field body of the loop of `convert_numeric_fields`: a candidate
key with a string value is parsed as a float, keeping the original string
when the parse fails (`except ValueError`); everything else passes
through unchanged. -/
def convertField (key : String) (value : PyVal) : PyVal :=
  if isNumericKey key then
    match value with
    | .str s =>
      match pyFloat s with
      | some q => .float q
      | Option.none => .str s
    | v => v
  else value

/-- The per-record loop of `convert_numeric_fields`: a fresh dict filled
by `converted[key] = ...` over the fields of the record in order. -/
def convertRecord (fields : List (String × PyVal)) : FlatRecord :=
  fields.foldl (fun conv p => dictSet conv p.1 (convertField p.1 p.2)) []

/-- `FacebookDataProcessor.convert_numeric_fields` (`src/data_processor.py`,
lines 189-229): maps the record loop over the batch; `item.items()` on a
non-dict raises `AttributeError`. -/
def convert_numeric_fields : List PyVal → Except PyErr (List PyVal)
  | [] => .ok []
  | item :: rest =>
    match item with
    | .dict fields =>
      match convert_numeric_fields rest with
      | .ok out => .ok (.dict (convertRecord fields) :: out)
      | .error e => .error e
    | _ => .error .attributeError

/-! ## Basic lemmas about the dict model -/

theorem dictSet_append (d : FlatRecord) (k : String) (v : PyVal)
    (h : ∀ p ∈ d, p.1 ≠ k) : dictSet d k v = d ++ [(k, v)] := by
  have hf : d.any (fun p => p.1 == k) = false := by
    rw [List.any_eq_false]
    intro p hp
    simpa using h p hp
  simp [dictSet, hf]

theorem dictGet_none (d : List (String × PyVal)) (k : String) (dflt : PyVal)
    (h : d.find? (fun p => p.1 == k) = Option.none) : dictGet d k dflt = dflt := by
  simp [dictGet, h]

theorem strAppend_cancel (p a b : String) (h : p ++ a = p ++ b) : a = b := by
  have hd : (p ++ a).data = (p ++ b).data := by rw [h]
  rw [String.data_append, String.data_append] at hd
  exact String.ext (List.append_cancel_left hd)

/-- Shape predicate: scalar means neither a Python list nor a Python dict. -/
def isScalar : PyVal → Bool
  | .list _ => false
  | .dict _ => false
  | _ => true

/-- Shape predicate used by the `isinstance(value, dict)` checks. -/
def isDictV : PyVal → Bool
  | .dict _ => true
  | _ => false

/-- The list-shaped ActionEntry built from a `(type, value)` pair, as in the
list form of conversions: `[ {action_type: t, value: v}, ... ]`. -/
def convEntry (p : String × PyVal) : PyVal :=
  .dict [("action_type", .str p.1), ("value", p.2)]

/-! ## Reduction lemmas for the flatten engine -/

theorem pyGet_convEntry_type (t : String) (v : PyVal) (d : PyVal) :
    pyGet (convEntry (t, v)) "action_type" d = .ok (.str t) := rfl

theorem pyGet_convEntry_value (t : String) (v : PyVal) (d : PyVal) :
    pyGet (convEntry (t, v)) "value" d = .ok v := rfl

theorem flattenPairs_cons (filt : Option (List String)) (pfx : String)
    (flat : FlatRecord) (p : String × PyVal) (rest : List (String × PyVal)) :
    flattenPairs filt pfx flat (p :: rest)
      = flattenPairs filt pfx
          (if filterPass filt (.str p.1) then dictSet flat (pfx ++ p.1) p.2 else flat) rest := rfl

/-- A list of entries in the canonical `(type, value)` form flattens to
exactly what the mapping form of the same pairs flattens to. -/
theorem flattenEntryList_map_eq (filt : Option (List String)) (pfx : String)
    (pairs : List (String × PyVal)) :
    ∀ flat, flattenEntryList filt pfx flat (pairs.map convEntry)
      = .ok (flattenPairs filt pfx flat pairs) := by
  induction pairs with
  | nil => intro flat; rfl
  | cons p rest ih =>
    intro flat
    obtain ⟨t, v⟩ := p
    show flattenEntryList filt pfx
        (if filterPass filt (.str t) then dictSet flat (pfx ++ pyStr (.str t)) v else flat)
        (rest.map convEntry) = _
    rw [ih, flattenPairs_cons]
    rfl

/-- Composition of the field loop over an append of field lists. -/
theorem flattenFields_append (a b c : Option (List String))
    (l₁ l₂ : List (String × PyVal)) :
    ∀ flat, flattenFields a b c flat (l₁ ++ l₂)
      = match flattenFields a b c flat l₁ with
        | .ok f => flattenFields a b c f l₂
        | .error e => .error e := by
  induction l₁ with
  | nil => intro flat; rfl
  | cons p rest ih =>
    intro flat
    obtain ⟨k, v⟩ := p
    simp only [List.cons_append, flattenFields]
    cases flattenStep a b c flat k v with
    | ok f => exact ih f
    | error e => rfl

theorem flatten_insights_dict (fields : List (String × PyVal))
    (a b c : Option (List String)) :
    flatten_insights (.dict fields) a b c = flattenFields a b c [] fields := rfl

/-! ## Claim C1 -/

/-- C1 counterexample: a `date_stop` field whose value is a nested mapping is
NOT dropped by `flatten_insights`; it is flattened by the generic
nested-object rule, so the output contains the pair `date_stop_x = "1"`,
which is derived from the `date_stop` field.  This refutes the claim that
flatten drops `date_stop` for every value shape. -/
theorem C1_counterexample :
    flatten_insights (.dict [("date_stop", .dict [("x", .str "1")])])
      Option.none Option.none Option.none
      = .ok [("date_stop_x", .str "1")] := rfl

/-- Per-field skip: a `date_stop` field whose value is not a dict is a
no-op of the field loop. -/
theorem flattenStep_date_stop_skip (a b c : Option (List String))
    (flat : FlatRecord) (v : PyVal) (h : isDictV v = false) :
    flattenStep a b c flat "date_stop" v = .ok flat := by
  cases v with
  | dict d => simp [isDictV] at h
  | list l => rfl
  | str s => rfl
  | int n => rfl
  | float q => rfl
  | bool bb => rfl
  | none => rfl

theorem flattenFields_erase_date_stop (a b c : Option (List String))
    (fields : List (String × PyVal))
    (h : ∀ p ∈ fields, p.1 = "date_stop" → isDictV p.2 = false) :
    ∀ flat, flattenFields a b c flat fields
      = flattenFields a b c flat (fields.filter (fun p => !(p.1 == "date_stop"))) := by
  induction fields with
  | nil => intro flat; rfl
  | cons p rest ih =>
    intro flat
    obtain ⟨k, v⟩ := p
    have hrest : ∀ p ∈ rest, p.1 = "date_stop" → isDictV p.2 = false :=
      fun q hq => h q (List.mem_cons_of_mem _ hq)
    by_cases hk : k = "date_stop"
    · subst hk
      have hv : isDictV v = false := h _ (List.mem_cons_self _ _) rfl
      simp only [flattenFields, flattenStep_date_stop_skip a b c flat v hv,
        List.filter_cons]
      simpa using ih hrest flat
    · simp only [flattenFields, List.filter_cons]
      have hcond : (!(k == "date_stop")) = true := by simpa using hk
      rw [hcond]
      simp only [if_pos]
      simp only [flattenFields]
      cases flattenStep a b c flat k v with
      | ok f => exact ih hrest f
      | error e => rfl

/-- C1 amended: `flatten_insights` drops a `date_stop` field whose value is
not a nested mapping — the output is the same as for the record with the
field removed.  (A mapping-valued `date_stop` instead falls to the generic
nested-object rule, see the counterexample.) -/
theorem C1_amended_date_stop_erasure (fields : List (String × PyVal))
    (a b c : Option (List String))
    (h : ∀ p ∈ fields, p.1 = "date_stop" → isDictV p.2 = false) :
    flatten_insights (.dict fields) a b c
      = flatten_insights (.dict (fields.filter (fun p => !(p.1 == "date_stop")))) a b c := by
  rw [flatten_insights_dict, flatten_insights_dict]
  exact flattenFields_erase_date_stop a b c fields h []

/-- C1 witness: the amended theorem applied to the spec example record
`{date_stop: "2025-01-01", spend: "10"}`. -/
theorem C1_witness :
    flatten_insights (.dict [("date_stop", .str "2025-01-01"), ("spend", .str "10")])
      Option.none Option.none Option.none
      = flatten_insights
          (.dict (([("date_stop", PyVal.str "2025-01-01"), ("spend", PyVal.str "10")] :
            List (String × PyVal)).filter (fun p => !(p.1 == "date_stop"))))
          Option.none Option.none Option.none :=
  C1_amended_date_stop_erasure _ _ _ _ (by decide)

/-! ## Claim C2 -/

/-- C2: the list shape and the mapping shape of `conversions` (and of
`conversion_values`) flatten to exactly the same output, in any surrounding
record and for every choice of filters. -/
theorem C2_shape_equivalence (pre post pairs : List (String × PyVal))
    (a b c : Option (List String)) :
    (flatten_insights (.dict (pre ++ ("conversions", .list (pairs.map convEntry)) :: post)) a b c
      = flatten_insights (.dict (pre ++ ("conversions", .dict pairs) :: post)) a b c)
    ∧ (flatten_insights (.dict (pre ++ ("conversion_values", .list (pairs.map convEntry)) :: post)) a b c
      = flatten_insights (.dict (pre ++ ("conversion_values", .dict pairs) :: post)) a b c) := by
  have main : ∀ k : String,
      (∀ f : FlatRecord, flattenStep a b c f k (.list (pairs.map convEntry))
        = flattenStep a b c f k (.dict pairs)) →
      flattenFields a b c [] (pre ++ (k, .list (pairs.map convEntry)) :: post)
        = flattenFields a b c [] (pre ++ (k, .dict pairs) :: post) := by
    intro k hstep
    rw [flattenFields_append, flattenFields_append]
    cases flattenFields a b c [] pre with
    | error e => rfl
    | ok f =>
      simp only [flattenFields]
      rw [hstep f]
  constructor
  · rw [flatten_insights_dict, flatten_insights_dict]
    refine main "conversions" (fun f => ?_)
    show flattenEntryList c "conversion_" f (pairs.map convEntry)
      = .ok (flattenPairs c "conversion_" f pairs)
    exact flattenEntryList_map_eq c "conversion_" pairs f
  · rw [flatten_insights_dict, flatten_insights_dict]
    refine main "conversion_values" (fun f => ?_)
    show flattenEntryList c "conversion_value_" f (pairs.map convEntry)
      = .ok (flattenPairs c "conversion_value_" f pairs)
    exact flattenEntryList_map_eq c "conversion_value_" pairs f

/-! ## Claim C10 -/

/-- C10: a mapping under a list-designated collection key (`actions`,
`action_values`, `video_thruplay_watched_actions`) is neither passed
through nor dropped: the generic nested-object rule fires, emitting
`{key}_{subkey}` for every subkey; e.g.
`flatten({actions: {purchase: "5"}}) = {actions_purchase: "5"}`. -/
theorem C10_collection_dict_generic (a b c : Option (List String))
    (f : FlatRecord) (k : String) (d : List (String × PyVal))
    (hk : k = "actions" ∨ k = "action_values" ∨ k = "video_thruplay_watched_actions") :
    flattenStep a b c f k (.dict d) = .ok (flattenPairs Option.none (k ++ "_") f d)
    ∧ flatten_insights (.dict [("actions", .dict [("purchase", .str "5")])]) a b c
        = .ok [("actions_purchase", .str "5")] := by
  constructor
  · rcases hk with h | h | h <;> subst h <;> rfl
  · rfl

/-- C10 witness: the theorem applied at `k = "actions"` on a concrete
mapping. -/
theorem C10_witness :
    flattenStep Option.none Option.none Option.none [] "actions" (.dict [("purchase", .str "5")])
      = .ok (flattenPairs Option.none ("actions" ++ "_") [] [("purchase", .str "5")])
    ∧ flatten_insights (.dict [("actions", .dict [("purchase", .str "5")])])
        Option.none Option.none Option.none
      = .ok [("actions_purchase", .str "5")] :=
  C10_collection_dict_generic Option.none Option.none Option.none [] "actions"
    [("purchase", .str "5")] (Or.inl rfl)

/-! ## Claim C9 -/

/-- A field whose value is a scalar (neither list nor dict) is either
skipped (`date_stop`) or passed through by the field loop. -/
theorem flattenStep_scalar (a b c : Option (List String)) (flat : FlatRecord)
    (k : String) (v : PyVal) (h : isScalar v = true) :
    flattenStep a b c flat k v
      = if k = "date_stop" then .ok flat else .ok (dictSet flat k v) := by
  cases v with
  | list l => simp [isScalar] at h
  | dict d => simp [isScalar] at h
  | str s => rfl
  | int n => rfl
  | float q => rfl
  | bool b0 => rfl
  | none => rfl

theorem flattenFields_scalar (a b c : Option (List String))
    (fields : List (String × PyVal)) :
    ∀ flat, (∀ p ∈ fields, isScalar p.2 = true) →
      (fields.map Prod.fst).Nodup →
      (∀ p ∈ fields, ∀ q ∈ flat, q.1 ≠ p.1) →
      flattenFields a b c flat fields
        = .ok (flat ++ fields.filter (fun p => !(p.1 == "date_stop"))) := by
  induction fields with
  | nil => intro flat _ _ _; simp [flattenFields]
  | cons p rest ih =>
    intro flat hsc hnd hdisj
    obtain ⟨k, v⟩ := p
    have hs := flattenStep_scalar a b c flat k v (hsc _ (List.mem_cons_self _ _))
    have hsc' : ∀ p ∈ rest, isScalar p.2 = true :=
      fun q hq => hsc q (List.mem_cons_of_mem _ hq)
    have hnd' : (rest.map Prod.fst).Nodup := by
      simpa using hnd.of_cons
    have hknotin : k ∉ rest.map Prod.fst := by
      have := hnd
      simp only [List.map_cons, List.nodup_cons] at this
      exact this.1
    by_cases hk : k = "date_stop"
    · subst hk
      rw [if_pos rfl] at hs
      simp only [flattenFields, hs, List.filter_cons]
      have hdisj' : ∀ p ∈ rest, ∀ q ∈ flat, q.1 ≠ p.1 :=
        fun p hp q hq => hdisj p (List.mem_cons_of_mem _ hp) q hq
      simpa using ih flat hsc' hnd' hdisj'
    · rw [if_neg hk] at hs
      have hset : dictSet flat k v = flat ++ [(k, v)] :=
        dictSet_append _ _ _ (fun q hq => hdisj (k, v) (List.mem_cons_self _ _) q hq)
      simp only [flattenFields, hs, hset]
      have hdisj' : ∀ p ∈ rest, ∀ q ∈ flat ++ [(k, v)], q.1 ≠ p.1 := by
        intro p hp q hq
        rcases List.mem_append.mp hq with hq | hq
        · exact hdisj p (List.mem_cons_of_mem _ hp) q hq
        · have : q = (k, v) := by simpa using hq
          subst this
          intro hcontra
          exact hknotin (by simpa [← hcontra] using List.mem_map_of_mem Prod.fst hp)
      rw [ih (flat ++ [(k, v)]) hsc' hnd' hdisj']
      have hkeep : (!(k == "date_stop")) = true := by simpa using hk
      simp [List.filter_cons, hkeep]

/-- C9: on a record whose values are all scalars, `flatten_insights`
returns the record unchanged except that a `date_stop` field is removed,
and it is idempotent on such records. -/
theorem C9_scalar_idempotence (fields : List (String × PyVal))
    (a b c : Option (List String))
    (h1 : ∀ p ∈ fields, isScalar p.2 = true)
    (h2 : (fields.map Prod.fst).Nodup) :
    flatten_insights (.dict fields) a b c
      = .ok (fields.filter (fun p => !(p.1 == "date_stop")))
    ∧ flatten_insights (.dict (fields.filter (fun p => !(p.1 == "date_stop")))) a b c
      = .ok (fields.filter (fun p => !(p.1 == "date_stop"))) := by
  constructor
  · rw [flatten_insights_dict]
    simpa using flattenFields_scalar a b c fields [] h1 h2 (by simp)
  · rw [flatten_insights_dict]
    have hsub : (fields.filter (fun p => !(p.1 == "date_stop"))).Sublist fields :=
      List.filter_sublist _
    have hf1 : ∀ p ∈ fields.filter (fun p => !(p.1 == "date_stop")), isScalar p.2 = true :=
      fun p hp => h1 p (hsub.mem hp)
    have hf2 : ((fields.filter (fun p => !(p.1 == "date_stop"))).map Prod.fst).Nodup :=
      h2.sublist (hsub.map Prod.fst)
    have := flattenFields_scalar a b c (fields.filter (fun p => !(p.1 == "date_stop")))
      [] hf1 hf2 (by simp)
    simpa [List.filter_filter] using this

/-- C9 witness: the theorem applied to the all-scalar record
`{campaign_name: "C", date_stop: "2025-01-01", spend: "10"}`. -/
theorem C9_witness :
    flatten_insights (.dict [("campaign_name", .str "C"), ("date_stop", .str "2025-01-01"),
        ("spend", .str "10")]) Option.none Option.none Option.none
      = .ok (([("campaign_name", PyVal.str "C"), ("date_stop", PyVal.str "2025-01-01"),
          ("spend", PyVal.str "10")] : List (String × PyVal)).filter
            (fun p => !(p.1 == "date_stop")))
    ∧ flatten_insights (.dict (([("campaign_name", PyVal.str "C"),
          ("date_stop", PyVal.str "2025-01-01"), ("spend", PyVal.str "10")] :
          List (String × PyVal)).filter (fun p => !(p.1 == "date_stop"))))
        Option.none Option.none Option.none
      = .ok (([("campaign_name", PyVal.str "C"), ("date_stop", PyVal.str "2025-01-01"),
          ("spend", PyVal.str "10")] : List (String × PyVal)).filter
            (fun p => !(p.1 == "date_stop"))) :=
  C9_scalar_idempotence _ Option.none Option.none Option.none (by decide) (by decide)

/-! ## Claim C7 -/

theorem flattenPairs_eq (filt : Option (List String)) (pfx : String)
    (pairs : List (String × PyVal)) :
    ∀ acc, (pairs.map Prod.fst).Nodup →
      (∀ p ∈ pairs, ∀ q ∈ acc, q.1 ≠ pfx ++ p.1) →
      flattenPairs filt pfx acc pairs
        = acc ++ (pairs.filter (fun p => filterPass filt (.str p.1))).map
            (fun p => (pfx ++ p.1, p.2)) := by
  induction pairs with
  | nil => intro acc _ _; simp [flattenPairs]
  | cons p rest ih =>
    intro acc hnd hdisj
    obtain ⟨t, v⟩ := p
    have hnd' : (rest.map Prod.fst).Nodup := by simpa using hnd.of_cons
    have htnotin : t ∉ rest.map Prod.fst := by
      have := hnd
      simp only [List.map_cons, List.nodup_cons] at this
      exact this.1
    rw [flattenPairs_cons]
    cases hb : filterPass filt (.str t) with
    | false =>
      rw [if_neg (by simp [hb])]
      have hdisj' : ∀ p ∈ rest, ∀ q ∈ acc, q.1 ≠ pfx ++ p.1 :=
        fun p hp q hq => hdisj p (List.mem_cons_of_mem _ hp) q hq
      rw [ih acc hnd' hdisj']
      simp [List.filter_cons, hb]
    | true =>
      rw [if_pos (by simp [hb])]
      have hset : dictSet acc (pfx ++ t) v = acc ++ [(pfx ++ t, v)] :=
        dictSet_append _ _ _
          (fun q hq => hdisj (t, v) (List.mem_cons_self _ _) q hq)
      rw [hset]
      have hdisj' : ∀ p ∈ rest, ∀ q ∈ acc ++ [(pfx ++ t, v)], q.1 ≠ pfx ++ p.1 := by
        intro p hp q hq
        rcases List.mem_append.mp hq with hq | hq
        · exact hdisj p (List.mem_cons_of_mem _ hp) q hq
        · have : q = (pfx ++ t, v) := by simpa using hq
          subst this
          intro hcontra
          have : t = p.1 := strAppend_cancel pfx t p.1 hcontra
          exact htnotin (this ▸ List.mem_map_of_mem Prod.fst hp)
      rw [ih (acc ++ [(pfx ++ t, v)]) hnd' hdisj']
      simp [List.filter_cons, hb]

/-- C7: a `conversion_values` field (in either shape) emits exactly the
`conversion_value_{type}` pairs for the types passing `conversionFilter`
(all types when the filter is unset); the action and action-value filters
`a` and `b` are universally quantified and absent from the result, so they
have no effect on the `conversion_values` output. -/
theorem C7_conversion_values_filter (pairs : List (String × PyVal))
    (a b c : Option (List String))
    (hnd : (pairs.map Prod.fst).Nodup) :
    flatten_insights (.dict [("conversion_values", .dict pairs)]) a b c
      = .ok ((pairs.filter (fun p => filterPass c (.str p.1))).map
          (fun p => ("conversion_value_" ++ p.1, p.2)))
    ∧ flatten_insights (.dict [("conversion_values", .list (pairs.map convEntry))]) a b c
      = .ok ((pairs.filter (fun p => filterPass c (.str p.1))).map
          (fun p => ("conversion_value_" ++ p.1, p.2))) := by
  have key : flattenPairs c "conversion_value_" [] pairs
      = (pairs.filter (fun p => filterPass c (.str p.1))).map
          (fun p => ("conversion_value_" ++ p.1, p.2)) := by
    simpa using flattenPairs_eq c "conversion_value_" pairs [] hnd (by simp)
  constructor
  · have h1 : flatten_insights (.dict [("conversion_values", .dict pairs)]) a b c
        = .ok (flattenPairs c "conversion_value_" [] pairs) := rfl
    rw [h1, key]
  · have h1 : flatten_insights (.dict [("conversion_values", .list (pairs.map convEntry))]) a b c
        = match flattenEntryList c "conversion_value_" [] (pairs.map convEntry) with
          | .ok f => .ok f
          | .error e => .error e := rfl
    rw [h1, flattenEntryList_map_eq c "conversion_value_" pairs [], key]

/-- C7 witness: concrete `conversion_values` pairs with distinct action
filters `a`, `b` and an unset conversion filter. -/
theorem C7_witness :
    flatten_insights (.dict [("conversion_values",
        .dict [("schedule_total", .str "1449"), ("find_location_total", .str "296")])])
        (some ["x"]) (some []) Option.none
      = .ok ((([("schedule_total", PyVal.str "1449"), ("find_location_total", PyVal.str "296")] :
          List (String × PyVal)).filter (fun p => filterPass Option.none (.str p.1))).map
            (fun p => ("conversion_value_" ++ p.1, p.2)))
    ∧ flatten_insights (.dict [("conversion_values",
        .list (([("schedule_total", PyVal.str "1449"), ("find_location_total", PyVal.str "296")] :
          List (String × PyVal)).map convEntry))]) (some ["x"]) (some []) Option.none
      = .ok ((([("schedule_total", PyVal.str "1449"), ("find_location_total", PyVal.str "296")] :
          List (String × PyVal)).filter (fun p => filterPass Option.none (.str p.1))).map
            (fun p => ("conversion_value_" ++ p.1, p.2))) :=
  C7_conversion_values_filter _ (some ["x"]) (some []) Option.none (by decide)

/-! ## Claim C6 -/

/-- C6: in a list-shaped collection entry, a missing `action_type` key makes
the emitted key use the literal type `unknown`, and a missing `value` key
makes the emitted value the integer `0`, in each of the five collection
categories; both defaults are total (no exception). -/
theorem C6_entry_defaults (e : List (String × PyVal)) :
    (e.find? (fun p => p.1 == "action_type") = Option.none →
      (flatten_insights (.dict [("actions", .list [.dict e])])
          Option.none Option.none Option.none
          = .ok [("action_unknown", dictGet e "value" (.int 0))]
       ∧ flatten_insights (.dict [("action_values", .list [.dict e])])
          Option.none Option.none Option.none
          = .ok [("action_value_unknown", dictGet e "value" (.int 0))]
       ∧ flatten_insights (.dict [("conversions", .list [.dict e])])
          Option.none Option.none Option.none
          = .ok [("conversion_unknown", dictGet e "value" (.int 0))]
       ∧ flatten_insights (.dict [("conversion_values", .list [.dict e])])
          Option.none Option.none Option.none
          = .ok [("conversion_value_unknown", dictGet e "value" (.int 0))]
       ∧ flatten_insights (.dict [("video_thruplay_watched_actions", .list [.dict e])])
          Option.none Option.none Option.none
          = .ok [("video_thruplay_watched_actions_unknown", dictGet e "value" (.int 0))]))
    ∧ (e.find? (fun p => p.1 == "value") = Option.none →
      (flatten_insights (.dict [("actions", .list [.dict e])])
          Option.none Option.none Option.none
          = .ok [("action_" ++ pyStr (dictGet e "action_type" (.str "unknown")), .int 0)]
       ∧ flatten_insights (.dict [("action_values", .list [.dict e])])
          Option.none Option.none Option.none
          = .ok [("action_value_" ++ pyStr (dictGet e "action_type" (.str "unknown")), .int 0)]
       ∧ flatten_insights (.dict [("conversions", .list [.dict e])])
          Option.none Option.none Option.none
          = .ok [("conversion_" ++ pyStr (dictGet e "action_type" (.str "unknown")), .int 0)]
       ∧ flatten_insights (.dict [("conversion_values", .list [.dict e])])
          Option.none Option.none Option.none
          = .ok [("conversion_value_" ++ pyStr (dictGet e "action_type" (.str "unknown")), .int 0)]
       ∧ flatten_insights (.dict [("video_thruplay_watched_actions", .list [.dict e])])
          Option.none Option.none Option.none
          = .ok [("video_thruplay_watched_actions_"
              ++ pyStr (dictGet e "action_type" (.str "unknown")), .int 0)])) := by
  constructor
  · intro h
    have hat : dictGet e "action_type" (.str "unknown") = .str "unknown" :=
      dictGet_none _ _ _ h
    refine ⟨?_, ?_, ?_, ?_, ?_⟩
    · have base : flatten_insights (.dict [("actions", .list [.dict e])])
          Option.none Option.none Option.none
          = .ok [("action_" ++ pyStr (dictGet e "action_type" (.str "unknown")),
              dictGet e "value" (.int 0))] := rfl
      rw [base, hat]
      rfl
    · have base : flatten_insights (.dict [("action_values", .list [.dict e])])
          Option.none Option.none Option.none
          = .ok [("action_value_" ++ pyStr (dictGet e "action_type" (.str "unknown")),
              dictGet e "value" (.int 0))] := rfl
      rw [base, hat]
      rfl
    · have base : flatten_insights (.dict [("conversions", .list [.dict e])])
          Option.none Option.none Option.none
          = .ok [("conversion_" ++ pyStr (dictGet e "action_type" (.str "unknown")),
              dictGet e "value" (.int 0))] := rfl
      rw [base, hat]
      rfl
    · have base : flatten_insights (.dict [("conversion_values", .list [.dict e])])
          Option.none Option.none Option.none
          = .ok [("conversion_value_" ++ pyStr (dictGet e "action_type" (.str "unknown")),
              dictGet e "value" (.int 0))] := rfl
      rw [base, hat]
      rfl
    · have base : flatten_insights (.dict [("video_thruplay_watched_actions", .list [.dict e])])
          Option.none Option.none Option.none
          = .ok [("video_thruplay_watched_actions_"
              ++ pyStr (dictGet e "action_type" (.str "unknown")),
              dictGet e "value" (.int 0))] := rfl
      rw [base, hat]
      rfl
  · intro h
    have hval : dictGet e "value" (.int 0) = .int 0 := dictGet_none _ _ _ h
    refine ⟨?_, ?_, ?_, ?_, ?_⟩
    · have base : flatten_insights (.dict [("actions", .list [.dict e])])
          Option.none Option.none Option.none
          = .ok [("action_" ++ pyStr (dictGet e "action_type" (.str "unknown")),
              dictGet e "value" (.int 0))] := rfl
      rw [base, hval]
    · have base : flatten_insights (.dict [("action_values", .list [.dict e])])
          Option.none Option.none Option.none
          = .ok [("action_value_" ++ pyStr (dictGet e "action_type" (.str "unknown")),
              dictGet e "value" (.int 0))] := rfl
      rw [base, hval]
    · have base : flatten_insights (.dict [("conversions", .list [.dict e])])
          Option.none Option.none Option.none
          = .ok [("conversion_" ++ pyStr (dictGet e "action_type" (.str "unknown")),
              dictGet e "value" (.int 0))] := rfl
      rw [base, hval]
    · have base : flatten_insights (.dict [("conversion_values", .list [.dict e])])
          Option.none Option.none Option.none
          = .ok [("conversion_value_" ++ pyStr (dictGet e "action_type" (.str "unknown")),
              dictGet e "value" (.int 0))] := rfl
      rw [base, hval]
    · have base : flatten_insights (.dict [("video_thruplay_watched_actions", .list [.dict e])])
          Option.none Option.none Option.none
          = .ok [("video_thruplay_watched_actions_"
              ++ pyStr (dictGet e "action_type" (.str "unknown")),
              dictGet e "value" (.int 0))] := rfl
      rw [base, hval]

/-- C6 witness: the theorem applied to the empty entry, which lacks both
the `action_type` and the `value` key. -/
theorem C6_witness :
    (flatten_insights (.dict [("actions", .list [.dict ([] : List (String × PyVal))])])
        Option.none Option.none Option.none
        = .ok [("action_unknown", dictGet [] "value" (.int 0))]
     ∧ flatten_insights (.dict [("action_values", .list [.dict ([] : List (String × PyVal))])])
        Option.none Option.none Option.none
        = .ok [("action_value_unknown", dictGet [] "value" (.int 0))]
     ∧ flatten_insights (.dict [("conversions", .list [.dict ([] : List (String × PyVal))])])
        Option.none Option.none Option.none
        = .ok [("conversion_unknown", dictGet [] "value" (.int 0))]
     ∧ flatten_insights (.dict [("conversion_values", .list [.dict ([] : List (String × PyVal))])])
        Option.none Option.none Option.none
        = .ok [("conversion_value_unknown", dictGet [] "value" (.int 0))]
     ∧ flatten_insights (.dict [("video_thruplay_watched_actions",
          .list [.dict ([] : List (String × PyVal))])])
        Option.none Option.none Option.none
        = .ok [("video_thruplay_watched_actions_unknown", dictGet [] "value" (.int 0))])
    ∧ (flatten_insights (.dict [("actions", .list [.dict ([] : List (String × PyVal))])])
        Option.none Option.none Option.none
        = .ok [("action_" ++ pyStr (dictGet [] "action_type" (.str "unknown")), .int 0)]
     ∧ flatten_insights (.dict [("action_values", .list [.dict ([] : List (String × PyVal))])])
        Option.none Option.none Option.none
        = .ok [("action_value_" ++ pyStr (dictGet [] "action_type" (.str "unknown")), .int 0)]
     ∧ flatten_insights (.dict [("conversions", .list [.dict ([] : List (String × PyVal))])])
        Option.none Option.none Option.none
        = .ok [("conversion_" ++ pyStr (dictGet [] "action_type" (.str "unknown")), .int 0)]
     ∧ flatten_insights (.dict [("conversion_values", .list [.dict ([] : List (String × PyVal))])])
        Option.none Option.none Option.none
        = .ok [("conversion_value_" ++ pyStr (dictGet [] "action_type" (.str "unknown")), .int 0)]
     ∧ flatten_insights (.dict [("video_thruplay_watched_actions",
          .list [.dict ([] : List (String × PyVal))])])
        Option.none Option.none Option.none
        = .ok [("video_thruplay_watched_actions_"
            ++ pyStr (dictGet [] "action_type" (.str "unknown")), .int 0)]) :=
  ⟨(C6_entry_defaults []).1 rfl, (C6_entry_defaults []).2 rfl⟩

/-! ## Claim C5 -/

theorem processItems_eq_mapM (a b c : Option (List String)) (items : List PyVal) :
    processItems a b c items = items.mapM (fun it => flatten_insights it a b c) := by
  induction items with
  | nil => rfl
  | cons x xs ih =>
    rw [List.mapM_cons]
    simp only [processItems, ih]
    cases flatten_insights x a b c with
    | error e => rfl
    | ok f =>
      cases xs.mapM (fun it => flatten_insights it a b c) with
      | error e => rfl
      | ok fs => rfl

/-- C5: when the `data` field of the response is a list `l` (the default
empty list when absent), `process_insights` returns `[]` for empty `l` and
otherwise flattens each element of `l` independently, in order, with no
cross-record state — i.e. it is exactly `mapM` of `flatten_insights`. -/
theorem C5_process_insights_map (respFields : List (String × PyVal)) (l : List PyVal)
    (a b c : Option (List String))
    (h : dictGet respFields "data" (.list []) = .list l) :
    process_insights (.dict respFields) a b c
      = l.mapM (fun it => flatten_insights it a b c) := by
  simp only [process_insights]
  rw [h]
  cases l with
  | nil => rfl
  | cons x xs => exact processItems_eq_mapM a b c (x :: xs)

/-- C5 witness: the spec example `process_insights({}) = []` — the record
without a `data` field, where the default empty list applies. -/
theorem C5_witness :
    process_insights (.dict []) Option.none Option.none Option.none
      = ([] : List PyVal).mapM
          (fun it => flatten_insights it Option.none Option.none Option.none) :=
  C5_process_insights_map [] [] Option.none Option.none Option.none rfl

/-! ## Claims C4 and C8 -/

theorem convertFold_eq (fields : List (String × PyVal)) :
    ∀ acc, (fields.map Prod.fst).Nodup →
      (∀ p ∈ fields, ∀ q ∈ acc, q.1 ≠ p.1) →
      fields.foldl (fun conv p => dictSet conv p.1 (convertField p.1 p.2)) acc
        = acc ++ fields.map (fun p => (p.1, convertField p.1 p.2)) := by
  induction fields with
  | nil => intro acc _ _; simp
  | cons p rest ih =>
    intro acc hnd hdisj
    obtain ⟨k, v⟩ := p
    have hnd' : (rest.map Prod.fst).Nodup := by simpa using hnd.of_cons
    have hknotin : k ∉ rest.map Prod.fst := by
      have := hnd
      simp only [List.map_cons, List.nodup_cons] at this
      exact this.1
    simp only [List.foldl_cons]
    have hset : dictSet acc k (convertField k v) = acc ++ [(k, convertField k v)] :=
      dictSet_append _ _ _ (fun q hq => hdisj (k, v) (List.mem_cons_self _ _) q hq)
    rw [hset]
    have hdisj' : ∀ p ∈ rest, ∀ q ∈ acc ++ [(k, convertField k v)], q.1 ≠ p.1 := by
      intro p hp q hq
      rcases List.mem_append.mp hq with hq | hq
      · exact hdisj p (List.mem_cons_of_mem _ hp) q hq
      · have : q = (k, convertField k v) := by simpa using hq
        subst this
        intro hc
        have hk2 : k = p.1 := hc
        exact hknotin (hk2 ▸ List.mem_map_of_mem Prod.fst hp)
    rw [ih (acc ++ [(k, convertField k v)]) hnd' hdisj']
    simp

theorem convertRecord_eq_map (fields : List (String × PyVal))
    (hnd : (fields.map Prod.fst).Nodup) :
    convertRecord fields = fields.map (fun p => (p.1, convertField p.1 p.2)) := by
  simpa [convertRecord] using convertFold_eq fields [] hnd (by simp)

theorem convert_map_dict (items : List (List (String × PyVal))) :
    convert_numeric_fields (items.map PyVal.dict)
      = .ok (items.map (fun it => PyVal.dict (convertRecord it))) := by
  induction items with
  | nil => rfl
  | cons it rest ih => simp only [List.map_cons, convert_numeric_fields, ih]

/-- C4: the numeric coercer maps each record pointwise; a field is touched
iff its key contains a vocabulary word of `numeric_patterns` as a
case-insensitive substring (`isNumericKey`); a candidate string value is
replaced by its parsed float when `pyFloat` succeeds, kept verbatim when
the parse fails, and every other field passes through unchanged. -/
theorem C4_numeric_coercion (items : List (List (String × PyVal)))
    (h : ∀ it ∈ items, (it.map Prod.fst).Nodup) :
    convert_numeric_fields (items.map PyVal.dict)
      = .ok (items.map (fun it => PyVal.dict (it.map (fun p => (p.1,
          if isNumericKey p.1 then
            match p.2 with
            | .str s =>
              match pyFloat s with
              | some q => .float q
              | Option.none => .str s
            | v => v
          else p.2))))) := by
  rw [convert_map_dict]
  congr 1
  apply List.map_congr_left
  intro it hit
  rw [convertRecord_eq_map it (h it hit)]
  rfl

/-- C4 witness: the spec examples — `spend: "100.50"` is parsed,
`campaign_name: "100"` is out of vocabulary and kept as a string, and
`spend: "N/A"` fails to parse and is kept. -/
theorem C4_witness :
    convert_numeric_fields (([[("spend", PyVal.str "100.50")],
        [("campaign_name", PyVal.str "100")], [("spend", PyVal.str "N/A")]] :
        List (List (String × PyVal))).map PyVal.dict)
      = .ok (([[("spend", PyVal.str "100.50")],
          [("campaign_name", PyVal.str "100")], [("spend", PyVal.str "N/A")]] :
          List (List (String × PyVal))).map (fun it => PyVal.dict (it.map (fun p => (p.1,
            if isNumericKey p.1 then
              match p.2 with
              | .str s =>
                match pyFloat s with
                | some q => .float q
                | Option.none => .str s
              | v => v
            else p.2))))) :=
  C4_numeric_coercion _ (by decide)

/-- C8: the numeric coercer is a pure batch map — the output has exactly
as many records as the input, and each output record has exactly the keys
of its input record, in the same order (values only are possibly
retyped). -/
theorem C8_frame (items : List (List (String × PyVal)))
    (h : ∀ it ∈ items, (it.map Prod.fst).Nodup) :
    convert_numeric_fields (items.map PyVal.dict)
        = .ok (items.map (fun it => PyVal.dict (convertRecord it)))
    ∧ (items.map (fun it => PyVal.dict (convertRecord it))).length = items.length
    ∧ ∀ it ∈ items, (convertRecord it).map Prod.fst = it.map Prod.fst := by
  refine ⟨convert_map_dict items, by simp, ?_⟩
  intro it hit
  rw [convertRecord_eq_map it (h it hit)]
  simp

/-- C8 witness: the frame theorem on a concrete two-record batch. -/
theorem C8_witness :
    convert_numeric_fields (([[("spend", PyVal.str "100.50"), ("campaign_name", PyVal.str "A")],
        [("clicks", PyVal.str "7")]] : List (List (String × PyVal))).map PyVal.dict)
        = .ok (([[("spend", PyVal.str "100.50"), ("campaign_name", PyVal.str "A")],
            [("clicks", PyVal.str "7")]] : List (List (String × PyVal))).map
              (fun it => PyVal.dict (convertRecord it)))
    ∧ (([[("spend", PyVal.str "100.50"), ("campaign_name", PyVal.str "A")],
        [("clicks", PyVal.str "7")]] : List (List (String × PyVal))).map
          (fun it => PyVal.dict (convertRecord it))).length
        = ([[("spend", PyVal.str "100.50"), ("campaign_name", PyVal.str "A")],
            [("clicks", PyVal.str "7")]] : List (List (String × PyVal))).length
    ∧ ∀ it ∈ ([[("spend", PyVal.str "100.50"), ("campaign_name", PyVal.str "A")],
        [("clicks", PyVal.str "7")]] : List (List (String × PyVal))),
        (convertRecord it).map Prod.fst = it.map Prod.fst :=
  C8_frame _ (by decide)

/-! ## Claim C3 -/

/-- C3 counterexample: a non-mapping entry inside the `actions` list makes
`flatten_insights` raise `AttributeError` (the `.get` call on a string),
refuting the claim that the core has no internal fatal error path for
arbitrary malformed input. -/
theorem C3_counterexample :
    flatten_insights (.dict [("actions", .list [.str "oops"])])
      Option.none Option.none Option.none = .error .attributeError := rfl

/-- The five collection keys whose list-shaped values are iterated with
`.get` calls on each entry. -/
def collectionKeys : List String :=
  ["actions", "action_values", "conversions", "conversion_values",
   "video_thruplay_watched_actions"]

/-- A value is safe to process under a collection key iff, when it is a
list, all its entries are mappings. -/
def entriesAllDicts : PyVal → Bool
  | .list l => l.all isDictV
  | _ => true

/-- Well-formedness of a record for `flatten_insights`: list values under
collection keys contain only mappings. -/
def wfFields (fields : List (String × PyVal)) : Bool :=
  fields.all (fun p => !(collectionKeys.contains p.1) || entriesAllDicts p.2)

/-- Normal termination (no raised exception) of a modelled computation. -/
def isOkE {α : Type} : Except PyErr α → Bool
  | .ok _ => true
  | .error _ => false

theorem flattenEntryList_ok (filt : Option (List String)) (pfx : String)
    (entries : List PyVal) :
    ∀ flat, entries.all isDictV = true →
      isOkE (flattenEntryList filt pfx flat entries) = true := by
  induction entries with
  | nil => intro flat _; rfl
  | cons x xs ih =>
    intro flat h
    simp only [List.all_cons, Bool.and_eq_true] at h
    obtain ⟨hx, hxs⟩ := h
    cases x with
    | dict d => exact ih _ hxs
    | str s => simp [isDictV] at hx
    | int n => simp [isDictV] at hx
    | float q => simp [isDictV] at hx
    | bool b0 => simp [isDictV] at hx
    | none => simp [isDictV] at hx
    | list l => simp [isDictV] at hx

theorem flattenStep_ok (a b c : Option (List String)) (flat : FlatRecord)
    (k : String) (v : PyVal)
    (h : collectionKeys.contains k = true → entriesAllDicts v = true) :
    isOkE (flattenStep a b c flat k v) = true := by
  cases v with
  | list entries =>
    by_cases h1 : k = "actions"
    · subst h1
      exact flattenEntryList_ok a "action_" entries flat
        (by simpa [entriesAllDicts] using h (by decide))
    · by_cases h2 : k = "action_values"
      · subst h2
        exact flattenEntryList_ok b "action_value_" entries flat
          (by simpa [entriesAllDicts] using h (by decide))
      · by_cases h3 : k = "conversions"
        · subst h3
          exact flattenEntryList_ok c "conversion_" entries flat
            (by simpa [entriesAllDicts] using h (by decide))
        · by_cases h4 : k = "conversion_values"
          · subst h4
            exact flattenEntryList_ok c "conversion_value_" entries flat
              (by simpa [entriesAllDicts] using h (by decide))
          · by_cases h5 : k = "video_thruplay_watched_actions"
            · subst h5
              exact flattenEntryList_ok Option.none "video_thruplay_watched_actions_"
                entries flat (by simpa [entriesAllDicts] using h (by decide))
            · simp only [flattenStep, if_neg h1, if_neg h2, if_neg h3, if_neg h4, if_neg h5]
              by_cases h6 : k = "date_stop"
              · simp [h6, isOkE]
              · simp [h6, isOkE]
  | dict pairs =>
    simp only [flattenStep]
    by_cases h1 : k = "conversions"
    · simp [h1, isOkE]
    · by_cases h2 : k = "conversion_values" <;> simp [h1, h2, isOkE]
  | str s =>
    simp only [flattenStep]
    by_cases h6 : k = "date_stop" <;> simp [h6, isOkE]
  | int n =>
    simp only [flattenStep]
    by_cases h6 : k = "date_stop" <;> simp [h6, isOkE]
  | float q =>
    simp only [flattenStep]
    by_cases h6 : k = "date_stop" <;> simp [h6, isOkE]
  | bool b0 =>
    simp only [flattenStep]
    by_cases h6 : k = "date_stop" <;> simp [h6, isOkE]
  | none =>
    simp only [flattenStep]
    by_cases h6 : k = "date_stop" <;> simp [h6, isOkE]

theorem flattenFields_ok (a b c : Option (List String)) (fields : List (String × PyVal)) :
    ∀ flat, wfFields fields = true →
      isOkE (flattenFields a b c flat fields) = true := by
  induction fields with
  | nil => intro flat _; rfl
  | cons p rest ih =>
    intro flat h
    obtain ⟨k, v⟩ := p
    simp only [wfFields, List.all_cons, Bool.and_eq_true] at h
    obtain ⟨h1, h2⟩ := h
    have hcond : collectionKeys.contains k = true → entriesAllDicts v = true := by
      intro hc
      rw [hc] at h1
      simpa using h1
    have hstep := flattenStep_ok a b c flat k v hcond
    simp only [flattenFields]
    cases hs : flattenStep a b c flat k v with
    | ok f => exact ih f h2
    | error e => rw [hs] at hstep; simp [isOkE] at hstep

theorem processItems_ok (a b c : Option (List String)) : ∀ items : List PyVal,
    (∀ v ∈ items, ∃ fs, v = PyVal.dict fs ∧ wfFields fs = true) →
    isOkE (processItems a b c items) = true := by
  intro items
  induction items with
  | nil => intro _; rfl
  | cons x xs ih =>
    intro h
    obtain ⟨fs, hx, hwf⟩ := h x (List.mem_cons_self _ _)
    subst hx
    simp only [processItems]
    have hflat : isOkE (flatten_insights (.dict fs) a b c) = true := by
      rw [flatten_insights_dict]
      exact flattenFields_ok a b c fs [] hwf
    cases hf : flatten_insights (.dict fs) a b c with
    | error e => rw [hf] at hflat; simp [isOkE] at hflat
    | ok f =>
      have hrest := ih (fun v hv => h v (List.mem_cons_of_mem _ hv))
      cases hr : processItems a b c xs with
      | error e => rw [hr] at hrest; simp [isOkE] at hrest
      | ok fs2 => rfl

theorem convert_numeric_fields_ok : ∀ batch : List PyVal,
    (∀ v ∈ batch, ∃ fs, v = PyVal.dict fs) →
    isOkE (convert_numeric_fields batch) = true := by
  intro batch
  induction batch with
  | nil => intro _; rfl
  | cons x xs ih =>
    intro h
    obtain ⟨fs, hx⟩ := h x (List.mem_cons_self _ _)
    subst hx
    simp only [convert_numeric_fields]
    have hrest := ih (fun v hv => h v (List.mem_cons_of_mem _ hv))
    cases hr : convert_numeric_fields xs with
    | error e => rw [hr] at hrest; simp [isOkE] at hrest
    | ok out => rfl

/-- C3 amended: the core never raises on well-formed data — records that
are mappings whose list-shaped collection fields contain only mapping
entries.  (On a non-mapping entry, `flatten_insights` raises
`AttributeError`, see the counterexample; the unamended claim is false.) -/
theorem C3_amended_no_raise_on_wellformed (a b c : Option (List String))
    (fields : List (String × PyVal)) (items batch : List PyVal)
    (h1 : wfFields fields = true)
    (h2 : ∀ v ∈ items, ∃ fs, v = PyVal.dict fs ∧ wfFields fs = true)
    (h3 : ∀ v ∈ batch, ∃ fs, v = PyVal.dict fs) :
    isOkE (flatten_insights (.dict fields) a b c) = true
    ∧ isOkE (process_insights (.dict [("data", .list items)]) a b c) = true
    ∧ isOkE (convert_numeric_fields batch) = true := by
  refine ⟨?_, ?_, convert_numeric_fields_ok batch h3⟩
  · rw [flatten_insights_dict]
    exact flattenFields_ok a b c fields [] h1
  · have hd : process_insights (.dict [("data", .list items)]) a b c
        = if pyFalsy (.list items) then .ok [] else processItems a b c items := rfl
    cases items with
    | nil => rfl
    | cons x xs =>
      have hp : isOkE (processItems a b c (x :: xs)) = true :=
        processItems_ok a b c (x :: xs) h2
      simpa [hd, pyFalsy] using hp

/-- C3 witness: the amended theorem on a well-formed record, response and
batch. -/
theorem C3_witness :
    isOkE (flatten_insights (.dict [("actions",
        .list [.dict [("action_type", PyVal.str "purchase"), ("value", PyVal.str "5")]])])
        Option.none Option.none Option.none) = true
    ∧ isOkE (process_insights (.dict [("data", .list [PyVal.dict [("spend", PyVal.str "1")]])])
        Option.none Option.none Option.none) = true
    ∧ isOkE (convert_numeric_fields [PyVal.dict [("spend", PyVal.str "100.50")]]) = true :=
  C3_amended_no_raise_on_wellformed Option.none Option.none Option.none _ _ _
    (by decide)
    (by
      intro v hv
      rw [List.mem_singleton] at hv
      subst hv
      exact ⟨_, rfl, by decide⟩)
    (by
      intro v hv
      rw [List.mem_singleton] at hv
      subst hv
      exact ⟨_, rfl⟩)
